import Mathlib

/-!
Verification of the request-bridging runtime of `sveltekit-adapter-cli`.

The development shallowly embeds the runtime sources:
  * `files/readline.ts` (`Readline._write`) — the Line Reader;
  * `files/handle.ts`   (`handle`, `serve`, `serveStatic`, `lookup`,
    `statFile`, `parseRange`, `writeResponse`) — request assembly, the
    static file resolver and response serialization;
  * `files/index.ts`    (the `render` CLI command action).

JavaScript strings are modelled as `String`, byte buffers as `List Nat`
(one `Nat` per byte), JavaScript numbers as `Int` (the programs in scope
stay far below 2^53, where IEEE doubles are exact on integers), and
filesystem contents as an explicit association list.  All string
operations used by the model are defined here over `String.data` so that
every definition is kernel-computable.
-/

set_option autoImplicit false

namespace SvelteCli

/-! ### String helpers (kernel-computable models of the JS string ops used) -/

/-- Characters of a string. -/
def chars (s : String) : List Char := s.data

/-- Rebuild a string from characters. -/
def ofChars (cs : List Char) : String := ⟨cs⟩

/-- Model of JS `String#startsWith`. -/
def strStartsWith (s pre : String) : Bool := pre.data.isPrefixOf s.data

/-- Model of JS `String#endsWith`. -/
def strEndsWith (s suf : String) : Bool := suf.data.isSuffixOf s.data

def containsAt : List Char → List Char → Bool
  | _, [] => true
  | [], _ :: _ => false
  | h :: hs, n :: ns => (h = n && containsAt hs ns) || containsAt hs (n :: ns)

/-- Model of JS `String#includes` (substring test). -/
def strIncludes (hay sub : String) : Bool :=
  sub.data.isPrefixOf hay.data || containsAt hay.data sub.data

def splitListOn (c : Char) : List Char → List (List Char)
  | [] => [[]]
  | x :: xs =>
    let r := splitListOn c xs
    if x = c then [] :: r
    else
      match r with
      | [] => [[x]]
      | seg :: segs => (x :: seg) :: segs

/-- Model of JS `String#split(sep)` for a one-character separator. -/
def strSplitOn (c : Char) (s : String) : List String :=
  (splitListOn c s.data).map ofChars

/-- Join segments with a separator (model of `Array#join` / path joining). -/
def joinSegs (sep : String) : List String → String
  | [] => ""
  | [x] => x
  | x :: xs => x ++ sep ++ joinSegs sep xs

/-- Model of JS `String#trim` restricted to ASCII blanks. -/
def strTrim (s : String) : String :=
  ofChars (((s.data.dropWhile (fun c => c = ' ' || c = '\t')).reverse.dropWhile
    (fun c => c = ' ' || c = '\t')).reverse)

/-- ASCII lower-casing of a character (used for header-name normalization). -/
def lowerChar (c : Char) : Char :=
  if 'A' ≤ c ∧ c ≤ 'Z' then Char.ofNat (c.toNat + 32) else c

/-- ASCII lower-casing (model of header-name normalization in `Headers`). -/
def lowerStr (s : String) : String := ofChars (s.data.map lowerChar)

/-- ASCII upper-casing of a character. -/
def upperChar (c : Char) : Char :=
  if 'a' ≤ c ∧ c ≤ 'z' then Char.ofNat (c.toNat - 32) else c

/-- Model of JS `String#toUpperCase` restricted to ASCII (CLI methods are ASCII). -/
def upperStr (s : String) : String := ofChars (s.data.map upperChar)

/-! ### `Headers` model

The fetch `Headers` class lower-cases names.  `append` adds an entry,
`set` replaces the value of an existing entry in place (appending when the
name is absent), `get` returns the first value for a name. -/

abbrev HeaderList := List (String × String)

def hGet (hs : HeaderList) (k : String) : Option String :=
  match hs.find? (fun p => p.1 = lowerStr k) with
  | some p => some p.2
  | none => none

def hHas (hs : HeaderList) (k : String) : Bool := (hGet hs k).isSome

def hSet (hs : HeaderList) (k v : String) : HeaderList :=
  let k := lowerStr k
  if hs.any (fun p => p.1 = k) then
    hs.map (fun p => if p.1 = k then (p.1, v) else p)
  else hs ++ [(k, v)]

def hAppend (hs : HeaderList) (k v : String) : HeaderList := hs ++ [(lowerStr k, v)]

/-! ### Line Reader (`files/readline.ts`)

```ts
const LF = '\n'.charCodeAt(0);
export class Readline extends Writable {
    #buff: Buffer = Buffer.alloc(0);
    _write(chunk, _, callback) {
        this.#buff = Buffer.concat([this.#buff, Buffer.from(chunk)]);
        let lf = this.#buff.indexOf(LF);
        while (lf >= 0) {
            const buff = this.#buff.subarray(0, lf);
            this.#buff = this.#buff.subarray(lf + 1);
            if (buff.length) this.emit('line', buff.toString('utf8'));
            lf = this.#buff.indexOf(LF);
        }
        callback();
    }
}
```

`extractLines` is the effect of the `while` loop on a buffer: the list of
segments split off at each newline (in order, empty segments included) and
the remaining buffer after the last newline.  It is written by structural
recursion; `extractLines_of_indexOfLF_none` / `extractLines_of_indexOfLF_some`
below prove that it satisfies exactly the loop's recurrence (split at the
first `LF`, recurse on the remainder).  The `if (buff.length)` guard — lines
emitted only when non-empty — is applied at emission time in `rlWrite`.
Emitted lines are kept as byte lists; `buff.toString('utf8')` decodes each
emitted byte list, which does not affect the sequence structure. -/

def LF : Nat := 10

/-- Model of `Buffer#indexOf(LF)`: index of the first newline byte, if any. -/
def indexOfLF : List Nat → Option Nat
  | [] => none
  | b :: rest => if b = LF then some 0 else (indexOfLF rest).map (· + 1)

/-- Segments before each newline of a buffer, and the tail after the last
newline (the state of `this.#buff` after `_write`'s loop finishes). -/
def extractLines : List Nat → List (List Nat) × List Nat
  | [] => ([], [])
  | b :: rest =>
    let r := extractLines rest
    if b = LF then ([] :: r.1, r.2)
    else
      match r.1 with
      | [] => ([], b :: r.2)
      | l :: ls => ((b :: l) :: ls, r.2)

/-- State of one `Readline` instance: the pending buffer and the lines
emitted so far (in emission order). -/
structure RLState where
  buff : List Nat
  emitted : List (List Nat)
  deriving DecidableEq

/-- Model of `Readline._write`: append the chunk to the buffer, then split
off and emit every complete line, skipping empty ones (`if (buff.length)`). -/
def rlWrite (st : RLState) (chunk : List Nat) : RLState :=
  let r := extractLines (st.buff ++ chunk)
  { buff := r.2, emitted := st.emitted ++ r.1.filter (fun l => l ≠ []) }

/-- Feed a sequence of chunks to a fresh `Readline` in order. -/
def rlFeed (chunks : List (List Nat)) : RLState :=
  chunks.foldl rlWrite ⟨[], []⟩

/-- If the buffer holds no newline, the `while` loop of `_write` does not
run: no line is split off and the buffer is retained whole. -/
theorem extractLines_of_indexOfLF_none :
    ∀ buff : List Nat, indexOfLF buff = none → extractLines buff = ([], buff) := by
  intro buff
  induction buff with
  | nil => intro; rfl
  | cons b rest ih =>
    intro h
    simp only [indexOfLF] at h
    by_cases hb : b = LF
    · simp [hb] at h
    · simp only [hb, if_neg] at h
      have hr : indexOfLF rest = none := by
        cases hrest : indexOfLF rest with
        | none => rfl
        | some i => rw [hrest] at h; simp at h
      have hrec := ih hr
      simp [extractLines, hb, hrec]

/-- If the first newline of the buffer is at index `lf`, one iteration of
the `while` loop splits off `buff.take lf` and continues on
`buff.drop (lf + 1)`: `extractLines` satisfies the loop's recurrence. -/
theorem extractLines_of_indexOfLF_some :
    ∀ (buff : List Nat) (lf : Nat), indexOfLF buff = some lf →
      extractLines buff =
        (buff.take lf :: (extractLines (buff.drop (lf + 1))).1,
         (extractLines (buff.drop (lf + 1))).2) := by
  intro buff
  induction buff with
  | nil => intro lf h; simp [indexOfLF] at h
  | cons b rest ih =>
    intro lf h
    simp only [indexOfLF] at h
    by_cases hb : b = LF
    · simp only [hb, if_pos] at h
      cases h
      simp [extractLines, hb]
    · simp only [hb, if_neg] at h
      cases hrest : indexOfLF rest with
      | none => rw [hrest] at h; simp at h
      | some j =>
        rw [hrest] at h
        simp at h
        subst h
        have hrec := ih j hrest
        simp [extractLines, hb, hrec, List.take_succ_cons, List.drop_succ_cons]

/-- When no line was split off, the buffer was returned unchanged. -/
theorem extractLines_fst_nil :
    ∀ l : List Nat, (extractLines l).1 = [] → (extractLines l).2 = l := by
  intro l
  induction l with
  | nil => intro _; rfl
  | cons b rest ih =>
    intro h
    by_cases hb : b = LF
    · simp [extractLines, hb] at h
    · simp only [extractLines, hb, if_neg] at h ⊢
      cases hr : (extractLines rest).1 with
      | nil => simp [hr, ih hr]
      | cons l' ls => simp [hr] at h

/-- The residual buffer after the `while` loop holds no newline. -/
theorem indexOfLF_extractLines_snd :
    ∀ l : List Nat, indexOfLF (extractLines l).2 = none := by
  intro l
  induction l with
  | nil => rfl
  | cons b rest ih =>
    by_cases hb : b = LF
    · simpa [extractLines, hb] using ih
    · rcases hr : (extractLines rest).1 with _ | ⟨l', ls⟩
      · have h2 := extractLines_fst_nil rest hr
        rw [h2] at ih
        simp [extractLines, hb, hr, indexOfLF, h2, ih]
      · simp [extractLines, hb, hr, ih]

/-- No emitted line segment contains a newline byte. -/
theorem extractLines_fst_no_LF :
    ∀ l : List Nat, ∀ line ∈ (extractLines l).1, ∀ x ∈ line, x ≠ LF := by
  intro l
  induction l with
  | nil => intro line h; simp [extractLines] at h
  | cons b rest ih =>
    intro line hline x hx
    by_cases hb : b = LF
    · simp only [extractLines, hb, if_pos] at hline
      rcases List.mem_cons.mp hline with h | h
      · subst h; simp at hx
      · exact ih line h x hx
    · simp only [extractLines, hb, if_neg] at hline
      cases hr : (extractLines rest).1 with
      | nil => rw [hr] at hline; simp at hline
      | cons l' ls =>
        rw [hr] at hline
        rcases List.mem_cons.mp hline with h | h
        · subst h
          rcases List.mem_cons.mp hx with h' | h'
          · subst h'; exact hb
          · exact ih l' (by rw [hr]; exact List.mem_cons_self _ _) x h'
        · exact ih line (by rw [hr]; exact List.mem_cons_of_mem _ h) x hx

/-- Splitting is lossless: re-appending a newline after each split segment
and then the residual buffer reconstructs the input byte sequence. -/
theorem extractLines_reconstruct :
    ∀ l : List Nat,
      ((extractLines l).1.map (fun s => s ++ [LF])).flatten ++ (extractLines l).2 = l := by
  intro l
  induction l with
  | nil => rfl
  | cons b rest ih =>
    by_cases hb : b = LF
    · simp only [extractLines, hb, if_pos]
      simpa using ih
    · simp only [extractLines, hb, if_neg]
      cases hr : (extractLines rest).1 with
      | nil =>
        simp [extractLines_fst_nil rest hr]
      | cons l' ls =>
        rw [hr] at ih
        simpa using ih

/-- The `while` loop distributes over buffer concatenation: splitting
`a ++ b` splits `a`, then splits the residue of `a` prepended to `b`. -/
theorem extractLines_append (a b : List Nat) :
    extractLines (a ++ b) =
      ((extractLines a).1 ++ (extractLines ((extractLines a).2 ++ b)).1,
       (extractLines ((extractLines a).2 ++ b)).2) := by
  induction a with
  | nil => simp [extractLines]
  | cons x a ih =>
    by_cases hx : x = LF
    · simp [extractLines, hx, ih]
    · rcases hA : (extractLines a).1 with _ | ⟨l, ls⟩
      · have h2 := extractLines_fst_nil a hA
        have hxa : extractLines (x :: a) = ([], x :: a) := by
          simp [extractLines, hx, hA, h2]
        simp [hxa]
      · simp [extractLines, hx, ih, hA]

/-- Closed form of feeding chunks from an arbitrary state whose pending
buffer holds no newline: the overall effect is one split of the whole
concatenation, with empty segments dropped from the emission log. -/
theorem rlFeed_foldl (cs : List (List Nat)) :
    ∀ st : RLState, indexOfLF st.buff = none →
      cs.foldl rlWrite st =
        { buff := (extractLines (st.buff ++ cs.flatten)).2,
          emitted := st.emitted ++
            ((extractLines (st.buff ++ cs.flatten)).1).filter (fun l => l ≠ []) } := by
  induction cs with
  | nil =>
    intro st hst
    simp [extractLines_of_indexOfLF_none st.buff hst]
  | cons c cs ih =>
    intro st hst
    have hbuff : indexOfLF (rlWrite st c).buff = none :=
      indexOfLF_extractLines_snd (st.buff ++ c)
    have := ih (rlWrite st c) hbuff
    rw [List.foldl_cons, this]
    simp only [rlWrite, List.flatten_cons, ← List.append_assoc]
    rw [extractLines_append (st.buff ++ c) cs.flatten]
    simp [List.filter_append]

/-! ### Path and URL helpers used by `serveStatic`

`decodeURIComponent` and `path.normalize` are platform builtins invoked by
`serveStatic`; they are modelled here at the fidelity the program exercises:

  * `decodeURIComponentM` decodes `%XX` escapes to the byte value, which is
    exact for escape-free strings and for ASCII escapes (multi-byte UTF-8
    reassembly and the `URIError` on malformed escapes are not modelled —
    no theorem below feeds such input);
  * `posixNormalize` is Node's documented `path.posix.normalize`: it
    collapses repeated separators, resolves `.` and `..` segments, and
    preserves a trailing separator. -/

def hexVal (c : Char) : Option Nat :=
  if '0' ≤ c ∧ c ≤ '9' then some (c.toNat - '0'.toNat)
  else if 'a' ≤ c ∧ c ≤ 'f' then some (c.toNat - 'a'.toNat + 10)
  else if 'A' ≤ c ∧ c ≤ 'F' then some (c.toNat - 'A'.toNat + 10)
  else none

def percentDecode : List Char → List Char
  | '%' :: a :: b :: rest =>
    match hexVal a, hexVal b with
    | some x, some y => Char.ofNat (16 * x + y) :: percentDecode rest
    | _, _ => '%' :: percentDecode (a :: b :: rest)
  | c :: rest => c :: percentDecode rest
  | [] => []

/-- Model of JS `decodeURIComponent` (see the section comment). -/
def decodeURIComponentM (s : String) : String := ofChars (percentDecode s.data)

/-- Segment resolution of Node's `normalizeString`: drop empty and `.`
segments; on `..` pop the previous segment, or keep the `..` when there is
nothing to pop and the path is relative (`allowAboveRoot`). -/
def normSegs (allowAboveRoot : Bool) (segs : List String) : List String :=
  segs.foldl
    (fun acc s =>
      if s = "" ∨ s = "." then acc
      else if s = ".." then
        if acc ≠ [] ∧ acc.getLast? ≠ some ".." then acc.dropLast
        else if allowAboveRoot then acc ++ [".."] else acc
      else acc ++ [s])
    []

/-- Model of Node `path.posix.normalize` (trailing separators preserved). -/
def posixNormalize (p : String) : String :=
  if p = "" then "." else
  let isAbs := strStartsWith p "/"
  let trailing := strEndsWith p "/"
  let core := joinSegs "/" (normSegs (!isAbs) (strSplitOn '/' p))
  if core = "" then
    if isAbs then "/" else if trailing then "./" else "."
  else
    let core := if trailing then core ++ "/" else core
    if isAbs then "/" ++ core else core

/-! ### Filesystem model

A snapshot of the relevant directory tree: an association list from
canonical absolute paths (no repeated or trailing separators) to entries.
`fsPathLookup` resolves a raw path the way POSIX `stat` does for the paths
this program produces: repeated separators collapse, and a path with a
trailing separator only resolves when it names a directory. -/

structure FileStats where
  content : List Nat
  mtimeMs : Int
  mtimeUTC : String
  deriving DecidableEq

/-- `stats.size` is the byte size of the file. -/
def FileStats.size (st : FileStats) : Nat := st.content.length

inductive FSEntry where
  | file (st : FileStats)
  | dir
  deriving DecidableEq

abbrev FS := List (String × FSEntry)

def collapseChars : List Char → List Char
  | [] => []
  | [c] => [c]
  | a :: b :: rest =>
    if a = '/' ∧ b = '/' then collapseChars (b :: rest)
    else a :: collapseChars (b :: rest)

/-- Collapse repeated path separators (POSIX treats `a//b` as `a/b`). -/
def collapseSlashes (s : String) : String := ofChars (collapseChars s.data)

def fsFind (fs : FS) (p : String) : Option FSEntry :=
  match fs.find? (fun e => e.1 = p) with
  | some e => some e.2
  | none => none

/-- Resolve a raw path against the snapshot (see the section comment). -/
def fsPathLookup (fs : FS) (p : String) : Option FSEntry :=
  let q := collapseSlashes p
  if q ≠ "/" ∧ strEndsWith q "/" then
    match fsFind fs (ofChars q.data.dropLast) with
    | some .dir => some .dir
    | _ => none
  else fsFind fs q

/-- Model of `fs.existsSync`. -/
def existsSyncM (fs : FS) (p : String) : Bool := (fsPathLookup fs p).isSome

/-! ### Static file resolution (`files/handle.ts`)

```ts
const tryFiles = ['.html', '.htm', '/index.html', '/index.htm'];

function statFile(path) {
    if (!existsSync(path)) return undefined;
    const stats = statSync(path);
    if (!stats.isFile()) return undefined;
    return stats;
}

function lookup(path) {
    let stats = statFile(path);
    if (stats) return [path, stats];
    for (let i = 0; i < tryFiles.length; i++) {
        const tryFile = path + tryFiles[i];
        stats = statFile(tryFile);
        if (stats) return [tryFile, stats];
    }
    return ['', null];
}
```
-/

def tryFiles : List String := [".html", ".htm", "/index.html", "/index.htm"]

def statFile (fs : FS) (path : String) : Option FileStats :=
  if ¬ existsSyncM fs path then none
  else
    match fsPathLookup fs path with
    | some (.file st) => some st
    | _ => none

def lookupTry (fs : FS) (path : String) : List String → String × Option FileStats
  | [] => ("", none)
  | suffix :: rest =>
    let tryFile := path ++ suffix
    match statFile fs tryFile with
    | some st => (tryFile, some st)
    | none => lookupTry fs path rest

def lookup (fs : FS) (path : String) : String × Option FileStats :=
  match statFile fs path with
  | some st => (path, some st)
  | none => lookupTry fs path tryFiles

/-! ### Range header parsing (`files/handle.ts`)

```ts
function parseRange(header) {
    if (!header.has('range')) return [null, null];
    const range = header.get('range')!;
    const match = /^bytes=(?:(\d+)\-(\d+)?|(\-\d+))/.exec(range);
    if (!match) return [null, null];
    if (match[3]) return [+match[3], null];
    return [+match[1], match[2] ? +match[2] + 1 : null];
}
```

The regular expression is modelled directly: after the literal `bytes=`,
either a maximal digit run, a `-`, and an optional maximal digit run
(alternative 1 — since a digit can never satisfy the required `-`,
backtracking inside `\d+` can never make alternative 1 succeed when the
maximal-munch reading fails), or a `-` followed by a digit run
(alternative 2).  The expression is unanchored at the end, so trailing
garbage is accepted. -/

def isDigitCh (c : Char) : Bool := '0' ≤ c ∧ c ≤ '9'

/-- Maximal digit run at the head of the input (`\d+`): its numeric value
and the rest, or `none` when the head is not a digit. -/
def digitRun (cs : List Char) (acc : Nat) : Nat × List Char :=
  match cs with
  | [] => (acc, [])
  | c :: rest =>
    if isDigitCh c then digitRun rest (acc * 10 + (c.toNat - '0'.toNat))
    else (acc, c :: rest)

def digits? (cs : List Char) : Option (Nat × List Char) :=
  match cs with
  | c :: _ => if isDigitCh c then some (digitRun cs 0) else none
  | [] => none

def parseRange (headers : HeaderList) : Option Int × Option Int :=
  match hGet headers "range" with
  | none => (none, none)
  | some range =>
    let cs := range.data
    if "bytes=".data.isPrefixOf cs then
      let rest := cs.drop 6
      match digits? rest with
      | some (d1, rest1) =>
        match rest1 with
        | '-' :: rest2 =>
          match digits? rest2 with
          | some (d2, _) => (some (d1 : Int), some ((d2 : Int) + 1))
          | none => (some (d1 : Int), none)
        | _ => (none, none)
      | none =>
        match rest with
        | '-' :: rest2 =>
          match digits? rest2 with
          | some (d2, _) => (some (-(d2 : Int)), none)
          | none => (none, none)
        | _ => (none, none)
    else (none, none)

/-! ### `serveStatic` (`files/handle.ts`, transcribed line by line)

External capabilities appearing inside `serveStatic` are parameters of
`StaticEnv`: the filesystem snapshot, the `IGNORE_FILES` environment value,
`Bun.Glob#match`, `Bun.file(path).type` (content-type sniffing) and
`manifest.appDir`.  `options.url` is the parsed `URL` object, carried as
its `origin`/`pathname`/`search` projections; the redirect location
`new URL(normalized + options.url.search, options.url).toString()` is
`origin ++ normalized ++ search` because `normalized` is a non-empty
absolute-path reference there. -/

structure StaticEnv where
  fs : FS
  ignoreFiles : Option String
  globMatch : String → String → Bool
  contentType : String → String
  appDir : String

structure ServeUrl where
  origin : String
  pathname : String
  search : String
  deriving DecidableEq

structure JsRequest where
  method : String
  headers : HeaderList
  deriving DecidableEq

structure HandleOpts where
  method : String
  url : ServeUrl
  clientIP : Option String
  static : Bool
  deriving DecidableEq

structure JsResponse where
  status : Nat
  statusText : String
  headers : HeaderList
  body : Option (List Nat)
  deriving DecidableEq

/-- Content of `Bun.file(p)` for an existing regular file. -/
def fileBytes (fs : FS) (p : String) : List Nat :=
  match fsPathLookup fs p with
  | some (.file st) => st.content
  | _ => []

/-- The `env.IGNORE_FILES` glob filter inside `serveStatic` (the env value
is truthy only when set and non-empty; `candidate` is
`normalized.substring(1)`). -/
def ignoredBy (env : StaticEnv) (normalized : String) : Bool :=
  match env.ignoreFiles with
  | none => false
  | some ig =>
    if ig = "" then false
    else
      let ignores := (strSplitOn ',' ig).map strTrim
      let candidate := ofChars (normalized.data.drop 1)
      ignores.any (fun g => env.globMatch g candidate)

def serveStatic (env : StaticEnv) (request : JsRequest) (options : HandleOpts)
    (basePath : String) (cache : Bool) : Option JsResponse :=
  if ¬ existsSyncM env.fs basePath then none
  else if request.method ≠ "GET" ∧ request.method ≠ "HEAD" then none
  else
  let normalized0 := posixNormalize (decodeURIComponentM options.url.pathname)
  let normalized := if normalized0 = "/" then "" else normalized0
  if ignoredBy env normalized then none
  else
  let looked := lookup env.fs (basePath ++ normalized)
  let resolvedPath := looked.1
  match looked.2 with
  | none => none
  | some stats =>
    if options.url.pathname ≠ "/" ∧ strEndsWith options.url.pathname "/" then
      some { status := 302, statusText := "",
             headers := [("location", options.url.origin ++ normalized ++ options.url.search)],
             body := none }
    else
    let etag := "W/" ++ toString stats.size ++ "-" ++ toString stats.mtimeMs
    let pr := parseRange request.headers
    let headers : HeaderList :=
      [("content-type", env.contentType resolvedPath),
       ("content-length", toString stats.size),
       ("last-modified", stats.mtimeUTC),
       ("etag", etag)]
    if hGet request.headers "if-non-match" = some etag then
      some { status := 304, statusText := "", headers := [], body := none }
    else if hHas request.headers "range" then
      let resp416 : Option JsResponse :=
        some { status := 416, statusText := "",
               headers := hSet (hSet headers "content-range" ("bytes */" ++ toString stats.size))
                 "content-length" "0",
               body := none }
      match pr.1 with
      | none => resp416
      | some rs =>
        if rs = 0 then resp416
        else
          let startBytes : Int := if rs < 0 then (stats.size : Int) + rs else rs
          let endBytes : Int :=
            if rs < 0 then (stats.size : Int)
            else
              match pr.2 with
              | some re => if re ≠ 0 then re + 1 else (stats.size : Int)
              | none => (stats.size : Int)
          if endBytes ≤ startBytes ∨ startBytes < 0 ∨ endBytes > (stats.size : Int) then resp416
          else
            some { status := 206, statusText := "",
                   headers := hSet (hSet (hSet headers "content-range"
                       ("bytes " ++ toString startBytes ++ "-" ++ toString (endBytes - 1)
                         ++ "/" ++ toString stats.size))
                     "content-length" (toString (endBytes - startBytes)))
                     "accept-range" "bytes",
                   body := some ((stats.content.drop startBytes.toNat).take
                     (endBytes - startBytes).toNat) }
    else
    let headers :=
      if cache then
        hSet headers "cache-control"
          (if strStartsWith normalized ("/" ++ env.appDir ++ "/immutable/") then
            "public,max-age=604800,immutable"
          else "public,max-age=14400")
      else headers
    match hGet request.headers "accept-encoding" with
    | none =>
      some { status := 200, statusText := "", headers := headers, body := some stats.content }
    | some ac =>
      if existsSyncM env.fs (resolvedPath ++ ".gz") ∧ strIncludes ac "gzip" then
        let gz := fileBytes env.fs (resolvedPath ++ ".gz")
        some { status := 200, statusText := "",
               headers := hSet (hSet headers "content-length" (toString gz.length))
                 "content-encoding" "gzip",
               body := some gz }
      else if existsSyncM env.fs (resolvedPath ++ ".br") ∧ strIncludes ac "br" then
        some { status := 200, statusText := "",
               headers := hSet headers "content-encoding" "br",
               body := some (fileBytes env.fs (resolvedPath ++ ".br")) }
      else
        some { status := 200, statusText := "", headers := headers, body := some stats.content }

/-! ### Dispatcher (`serve` / `firstResolve`) and the client-address resolver

```ts
return server.respond(request, {
    getClientAddress() {
        if (options.clientIP) return options.clientIP;
        throw new Error('Unable to determine client IP.');
    }
});
```

`server.respond` is an opaque capability; `serve` takes it as a function
that may throw (`Except.error`).  `firstResolve` falls back to a plain-text
404 when every resolver yields nothing. -/

def getClientAddress (options : HandleOpts) : Except String String :=
  match options.clientIP with
  | some s => if s ≠ "" then .ok s else .error "Unable to determine client IP."
  | none => .error "Unable to determine client IP."

def notFoundResp : JsResponse :=
  { status := 404, statusText := "",
    headers := [("content-type", "text/plain")],
    body := some ("404 Not Found".data.map Char.toNat) }

def serve (env : StaticEnv) (basePath : String)
    (respond : Unit → Except String (Option JsResponse))
    (request : JsRequest) (options : HandleOpts) : Except String JsResponse :=
  match (if options.static then serveStatic env request options (basePath ++ "/client") true
         else none) with
  | some r => .ok r
  | none =>
    match serveStatic env request options (basePath ++ "/prerendered") false with
    | some r => .ok r
    | none =>
      match respond () with
      | .error e => .error e
      | .ok (some r) => .ok r
      | .ok none => .ok notFoundResp

/-! ### Response serialization (`writeResponse`)

The response body is consumed as a stream; the model carries it as at most
one chunk, and a `data` command is emitted per non-empty chunk with its
payload (base64 encoding of the chunk on the wire is transport framing).
-/

inductive OutCmd where
  | status (code : Nat) (text : String)
  | header (key value : String)
  | startBody
  | data (chunk : List Nat)
  | endBody
  deriving DecidableEq

def writeResponse (res : JsResponse) (ignoreBody : Bool) : List OutCmd :=
  [OutCmd.status res.status res.statusText]
    ++ res.headers.map (fun p => OutCmd.header p.1 p.2)
    ++ [OutCmd.startBody]
    ++ (match res.body, ignoreBody with
        | none, _ => []
        | some _, true => []
        | some b, false => if b = [] then [] else [OutCmd.data b])
    ++ [OutCmd.endBody]

/-! ### Request assembly (`handle`)

```ts
let bodyStart = false;
readline.on('line', (line) => {
    const [cmd, ...params] = JSON.parse(line);
    if (!bodyStart) {
        switch (cmd) {
            case 'header': headers.append(params[0], params[1]); break;
            case 'start-body': { ... bodyStart = true; serve(req, options).then(...); break; }
        }
    } else if (!abort.signal.aborted) {
        switch (cmd) {
            case 'data': pipe.write(Buffer.from(params[0], 'base64')); break;
            case 'end-body': pipe.end(); break;
            case 'abort': pipe.end(); abort.abort(); break;
        }
    }
});
```

`handleStep` is the transition function of this event handler; `dispatched`
counts how many times the `start-body` case started the dispatcher
(`serve(req, options).then(...)`). `InCmd.other` stands for any command
name not recognized by either `switch`. -/

inductive InCmd where
  | header (key value : String)
  | startBody
  | data (chunk : List Nat)
  | endBody
  | abort
  | other (name : String)
  deriving DecidableEq

structure HandleState where
  headers : HeaderList
  bodyStart : Bool
  aborted : Bool
  bodyData : List Nat
  bodyEnded : Bool
  dispatched : Nat
  deriving DecidableEq

def handleInit : HandleState :=
  { headers := [], bodyStart := false, aborted := false,
    bodyData := [], bodyEnded := false, dispatched := 0 }

def handleStep (s : HandleState) (c : InCmd) : HandleState :=
  if ¬ s.bodyStart then
    match c with
    | .header k v => { s with headers := hAppend s.headers k v }
    | .startBody => { s with bodyStart := true, dispatched := s.dispatched + 1 }
    | _ => s
  else if ¬ s.aborted then
    match c with
    | .data b => { s with bodyData := s.bodyData ++ b }
    | .endBody => { s with bodyEnded := true }
    | .abort => { s with bodyEnded := true, aborted := true }
    | _ => s
  else s

def runCmds (cs : List InCmd) : HandleState := cs.foldl handleStep handleInit

/-! ### Dispatch finalization and process exit (`handle` / `files/index.ts`)

```ts
serve(req, options)
    .then((res) => writeResponse(res, req.method === 'HEAD'))
    .catch((err) => { console.error(err); })
    .finally(async () => {
        await Promise.allSettled(waits);
        process.exit(0);
    });
```

A dispatch failure is caught and logged, no output command is written, and
the `finally` handler still runs `process.exit(0)`.  A CLI validation
failure is an exception thrown from the `render` action before `handle`
runs; the uncaught exception terminates the process with a non-zero code
(modelled as 1). -/

inductive DispatchResult where
  | response (r : JsResponse)
  | thrown (err : String)
  deriving DecidableEq

structure HandleFinish where
  output : List OutCmd
  logged : Option String
  exitCode : Nat
  deriving DecidableEq

def finishHandle (ignoreBody : Bool) : DispatchResult → HandleFinish
  | .response r => { output := writeResponse r ignoreBody, logged := none, exitCode := 0 }
  | .thrown e => { output := [], logged := some e, exitCode := 0 }

/-! ### The `render` CLI action (`files/index.ts`)

```ts
.action((opts) => {
    if (typeof opts.url !== 'string' || !URL.canParse(opts.url)) throw ...;
    if (typeof opts.method !== 'string') throw ...;
    const method = opts.method.toUpperCase();
    if (!methods.has(method)) throw ...;
    const serveStatic = Boolean(opts.static);
    const clientIP = `${opts.clientIp}`;
    handle({ url: new URL(opts.url), method, clientIP, static: serveStatic });
});
```

`opts.clientIp` is absent (`undefined`) when `--client-ip` was not passed;
the template literal turns it into the literal string `"undefined"`.
`URL.canParse` and `new URL` are platform capabilities, taken as
parameters. -/

def methodsSet : List String := ["GET", "HEAD", "POST", "PUT", "PATCH", "OPTIONS"]

structure CliOpts where
  url : Option String
  method : Option String
  clientIp : Option String
  static : Bool

/-- JS template-literal stringification of a possibly-`undefined` value. -/
def jsStr : Option String → String
  | some s => s
  | none => "undefined"

def cliAction (canParse : String → Bool) (parseUrl : String → ServeUrl)
    (opts : CliOpts) : Except String HandleOpts :=
  match opts.url with
  | none => .error "url option need to be a valid url."
  | some u =>
    if ¬ canParse u then .error "url option need to be a valid url."
    else
      match opts.method with
      | none => .error "method must be a string."
      | some m =>
        let method := upperStr m
        if ¬ methodsSet.contains method then .error ("invalid method: " ++ method)
        else .ok { url := parseUrl u, method := method,
                   clientIP := some (jsStr opts.clientIp), static := opts.static }

/-- Exit code of one whole `render` invocation, given the CLI options and
the eventual dispatch outcome. -/
def processExit (canParse : String → Bool) (parseUrl : String → ServeUrl)
    (opts : CliOpts) (d : DispatchResult) : Nat :=
  match cliAction canParse parseUrl opts with
  | .error _ => 1
  | .ok ho => (finishHandle (ho.method = "HEAD") d).exitCode

/-! ### Lifecycle Controller (`handle`)

```ts
const waits = new Set<Promise<any>>();
const wu = { waitUntil(promise) { waits.add(promise.catch(console.error)); } };
...
.finally(async () => { await Promise.allSettled(waits); process.exit(0); });
```

Each registered promise is wrapped with `.catch(console.error)`, so a
rejection is logged and the wrapped promise fulfills; `Promise.allSettled`
then awaits every wrapped promise before `process.exit(0)` runs.
`lifecycleTrace` is the event trace of that finalizer: per registered
promise (in drain order) a log event when it rejected followed by its
settlement, and a single exit event at the very end. -/

inductive Settlement where
  | fulfilled
  | rejected (err : String)
  deriving DecidableEq

inductive LEvent where
  | settled (idx : Nat)
  | logged (err : String)
  | exit (code : Nat)
  deriving DecidableEq

def drainFrom (i : Nat) : List Settlement → List LEvent
  | [] => [LEvent.exit 0]
  | w :: ws =>
    (match w with
     | .fulfilled => [LEvent.settled i]
     | .rejected e => [LEvent.logged e, LEvent.settled i]) ++ drainFrom (i + 1) ws

def lifecycleTrace (waits : List Settlement) : List LEvent := drainFrom 0 waits

/-! ### Concrete fixtures for the evaluation theorems

A small filesystem snapshot: a client-asset directory holding a 10-byte
file `file.bin` and a directory `foo` that contains only `foo/index.html`,
and a prerendered directory holding `page.html` with a 3-byte brotli
sibling and `pg.html` with a 4-byte gzip sibling.  Modification time is
`1700` ms for the originals, so `file.bin`'s weak validator is
`W/10-1700`. -/

def fixtureFS : FS :=
  [("/srv/client", .dir),
   ("/srv/client/file.bin", .file ⟨[0, 1, 2, 3, 4, 5, 6, 7, 8, 9], 1700, "LM"⟩),
   ("/srv/client/foo", .dir),
   ("/srv/client/foo/index.html", .file ⟨[72, 73], 1700, "LM"⟩),
   ("/srv/pre", .dir),
   ("/srv/pre/page.html", .file ⟨[1, 2, 3, 4, 5, 6, 7, 8, 9, 10], 1700, "LM"⟩),
   ("/srv/pre/page.html.br", .file ⟨[7, 7, 7], 1701, "LM"⟩),
   ("/srv/pre/pg.html", .file ⟨[1, 2, 3, 4, 5, 6, 7, 8, 9, 10], 1700, "LM"⟩),
   ("/srv/pre/pg.html.gz", .file ⟨[8, 8, 8, 8], 1701, "LM"⟩)]

def fixtureEnv : StaticEnv :=
  { fs := fixtureFS, ignoreFiles := none, globMatch := fun _ _ => false,
    contentType := fun _ => "application/octet-stream", appDir := "_app" }

def getOpts (path search : String) : HandleOpts :=
  { method := "GET",
    url := { origin := "http://localhost", pathname := path, search := search },
    clientIP := some "1.2.3.4", static := true }

def urlStub : ServeUrl := { origin := "http://localhost", pathname := "/", search := "" }

/-! ## Claim theorems -/

/-- **C1.** The claim says a valid range `bytes=0-4` on a 10-byte file
yields 206 with `content-range: bytes 0-4/10`, `content-length: 5` and the
first five bytes.  Evaluating `serveStatic` at that input shows the code
instead answers 416 with `content-range: bytes */10` and zero
content-length: `parseRange` returns start `0`, and the guard
`if (!rangeStart)` treats the number `0` as a missing start.  Two further
evaluations document the neighbouring defects: `bytes=1-4` is answered 206
but with `content-range: bytes 1-5/10`, `content-length: 5` and body bytes
1..5 (`parseRange` already returns `end + 1` and `serveStatic` adds 1
again), and the valid range `bytes=5-9` is answered 416 (the doubly
incremented end exceeds the file size). -/
theorem c1_range_bytes_0_4_rejected :
    serveStatic fixtureEnv ⟨"GET", [("range", "bytes=0-4")]⟩
        (getOpts "/file.bin" "") "/srv/client" true =
      some { status := 416, statusText := "",
             headers := [("content-type", "application/octet-stream"),
                         ("content-length", "0"), ("last-modified", "LM"),
                         ("etag", "W/10-1700"), ("content-range", "bytes */10")],
             body := none } ∧
    serveStatic fixtureEnv ⟨"GET", [("range", "bytes=1-4")]⟩
        (getOpts "/file.bin" "") "/srv/client" true =
      some { status := 206, statusText := "",
             headers := [("content-type", "application/octet-stream"),
                         ("content-length", "5"), ("last-modified", "LM"),
                         ("etag", "W/10-1700"), ("content-range", "bytes 1-5/10"),
                         ("accept-range", "bytes")],
             body := some [1, 2, 3, 4, 5] } ∧
    serveStatic fixtureEnv ⟨"GET", [("range", "bytes=5-9")]⟩
        (getOpts "/file.bin" "") "/srv/client" true =
      some { status := 416, statusText := "",
             headers := [("content-type", "application/octet-stream"),
                         ("content-length", "0"), ("last-modified", "LM"),
                         ("etag", "W/10-1700"), ("content-range", "bytes */10")],
             body := none } :=
  ⟨rfl, rfl, rfl⟩

/-- **C2, counterexample.** The claim says an uncaught dispatch failure
terminates the process with a non-zero exit code.  In the code the promise
chain ends in `.catch(err => console.error(err)).finally(... process.exit(0))`:
the thrown error is logged, no output command is written — and the exit
code is still 0. -/
theorem c2_dispatch_failure_exit_code_cex :
    finishHandle false (.thrown "boom") =
      { output := [], logged := some "boom", exitCode := 0 } :=
  rfl

/-- **C2, amended.** The process exit code is 0 both for every completed
request (whatever the response, 404/416 included) and for a dispatch
failure after `start-body` (the error is logged and no response is
written); it is non-zero exactly when CLI argument validation fails. -/
theorem c2_exit_zero_iff_cli_ok (canParse : String → Bool)
    (parseUrl : String → ServeUrl) (opts : CliOpts) (d : DispatchResult) :
    processExit canParse parseUrl opts d = 0 ↔
      ∃ ho, cliAction canParse parseUrl opts = .ok ho := by
  unfold processExit
  cases h : cliAction canParse parseUrl opts with
  | error e => simp [h]
  | ok ho =>
    cases d with
    | response r => simp [finishHandle]
    | thrown e => simp [finishHandle]

/-- **C3.** The claim says a request for `/foo/` (when `/foo/index.html`
exists and `/foo` does not) is answered 302 with the trailing slash
stripped from the location, before any index resolution.  Evaluating the
code: the redirect fires only after `lookup` has already resolved
`/foo//index.html`, and its location keeps the trailing slash (Node's
`path.normalize` preserves trailing separators), so `/foo/?a=1` redirects
to itself at `http://localhost/foo/?a=1`; and for `/bar/`, where nothing
resolves, no redirect is produced at all (the resolver falls through). -/
theorem c3_trailing_slash_redirect_eval :
    serveStatic fixtureEnv ⟨"GET", []⟩ (getOpts "/foo/" "?a=1") "/srv/client" true =
      some { status := 302, statusText := "",
             headers := [("location", "http://localhost/foo/?a=1")],
             body := none } ∧
    serveStatic fixtureEnv ⟨"GET", []⟩ (getOpts "/bar/" "") "/srv/client" true = none :=
  ⟨rfl, rfl⟩

/-- **C4.** The claim says every precompressed sibling response reports
the compressed file's size in `content-length`.  Evaluating the code: the
gzip branch does set `content-length` to the sibling's size (4 for the
4-byte `pg.html.gz`), but the brotli branch sets only `content-encoding`,
leaving `content-length: 10` — the original `page.html` size — on a 3-byte
compressed body. -/
theorem c4_precompressed_content_length_eval :
    serveStatic fixtureEnv ⟨"GET", [("accept-encoding", "br")]⟩
        (getOpts "/page" "") "/srv/pre" false =
      some { status := 200, statusText := "",
             headers := [("content-type", "application/octet-stream"),
                         ("content-length", "10"), ("last-modified", "LM"),
                         ("etag", "W/10-1700"), ("content-encoding", "br")],
             body := some [7, 7, 7] } ∧
    serveStatic fixtureEnv ⟨"GET", [("accept-encoding", "gzip")]⟩
        (getOpts "/pg" "") "/srv/pre" false =
      some { status := 200, statusText := "",
             headers := [("content-type", "application/octet-stream"),
                         ("content-length", "4"), ("last-modified", "LM"),
                         ("etag", "W/10-1700"), ("content-encoding", "gzip")],
             body := some [8, 8, 8, 8] } :=
  ⟨rfl, rfl⟩

/-- **C5.** The claim says the client-address resolver throws a "cannot
determine client IP" error when no client IP was supplied on the CLI.
Evaluating the code: the `render` action stringifies the absent option
with a template literal, so `handle` receives the literal string
`"undefined"`, which is truthy — the resolver returns `"undefined"`
instead of throwing.  (When an IP is supplied it is returned as claimed,
and the throwing branch exists but is reachable only for an explicitly
empty `clientIP`.) -/
theorem c5_client_ip_eval :
    cliAction (fun _ => true) (fun _ => urlStub)
        { url := some "http://localhost/", method := some "get",
          clientIp := none, static := true } =
      .ok { url := urlStub, method := "GET", clientIP := some "undefined",
            static := true } ∧
    getClientAddress { url := urlStub, method := "GET",
                       clientIP := some "undefined", static := true } =
      .ok "undefined" ∧
    getClientAddress { url := urlStub, method := "GET",
                       clientIP := some "203.0.113.7", static := true } =
      .ok "203.0.113.7" ∧
    getClientAddress { url := urlStub, method := "GET", clientIP := none,
                       static := true } =
      .error "Unable to determine client IP." :=
  ⟨rfl, rfl, rfl, rfl⟩

/-- **C6.** The claim says a request whose `if-none-match` equals the
computed weak validator `W/{size}-{mtimeMs}` gets 304 with no body.
Evaluating the code: it compares the misspelled header `if-non-match`, so
the standard `if-none-match` request is answered 200 with the full body,
while a request carrying the nonstandard `if-non-match` header gets the
304. -/
theorem c6_conditional_get_eval :
    serveStatic fixtureEnv ⟨"GET", [("if-none-match", "W/10-1700")]⟩
        (getOpts "/file.bin" "") "/srv/client" true =
      some { status := 200, statusText := "",
             headers := [("content-type", "application/octet-stream"),
                         ("content-length", "10"), ("last-modified", "LM"),
                         ("etag", "W/10-1700"),
                         ("cache-control", "public,max-age=14400")],
             body := some [0, 1, 2, 3, 4, 5, 6, 7, 8, 9] } ∧
    serveStatic fixtureEnv ⟨"GET", [("if-non-match", "W/10-1700")]⟩
        (getOpts "/file.bin" "") "/srv/client" true =
      some { status := 304, statusText := "", headers := [], body := none } :=
  ⟨rfl, rfl⟩

/-- **C7, counterexample.** The claim says the Line Reader emits *each*
complete line.  Feeding the single chunk `"A\n\nB\n"` produces the emitted
sequence `["A", "B"]`, while the complete lines of that input are
`["A", "", "B"]`: the `if (buff.length)` guard in `_write` silently drops
the empty line. -/
theorem c7_empty_line_dropped_cex :
    (rlFeed [[65, 10, 10, 66, 10]]).emitted = [[65], [66]] ∧
    (extractLines [65, 10, 10, 66, 10]).1 = [[65], [], [66]] ∧
    ([[65], [66]] : List (List Nat)) ≠ [[65], [], [66]] := by
  decide

/-- **C7, amended.** After feeding any chunk sequence, the Line Reader has
emitted, in order, exactly the *non-empty* complete lines of the
concatenated input (empty lines are discarded); no emitted line contains a
newline (never a partial line), and the trailing bytes after the last
newline remain buffered, newline-free, with splitting lossless — so an
unterminated trailing line is never dropped and is emitted (when
non-empty) once a later chunk terminates it. -/
theorem c7_line_reader_amended (chunks : List (List Nat)) :
    (rlFeed chunks).emitted =
      ((extractLines chunks.flatten).1).filter (fun l => l ≠ []) ∧
    (rlFeed chunks).buff = (extractLines chunks.flatten).2 ∧
    indexOfLF (extractLines chunks.flatten).2 = none ∧
    ((extractLines chunks.flatten).1.map (fun s => s ++ [LF])).flatten ++
        (extractLines chunks.flatten).2 = chunks.flatten ∧
    ((extractLines chunks.flatten).1).all
        (fun line => line.all (fun x => x != LF)) = true := by
  have hfeed := rlFeed_foldl chunks ⟨[], []⟩ rfl
  refine ⟨?_, ?_, indexOfLF_extractLines_snd _, extractLines_reconstruct _, ?_⟩
  · rw [rlFeed, hfeed]
    simp
  · rw [rlFeed, hfeed]
    simp
  · rw [List.all_eq_true]
    intro line hline
    rw [List.all_eq_true]
    intro x hx
    simpa using extractLines_fst_no_LF _ line hline x hx

/-- **C8.** Chunk-boundary independence: feeding any chunk sequence to the
Line Reader in order leaves it in exactly the state (emitted lines and
pending buffer) reached by feeding the whole concatenation as one chunk. -/
theorem c8_chunk_boundary_independence (chunks : List (List Nat)) :
    rlFeed chunks = rlFeed [chunks.flatten] := by
  have h1 := rlFeed_foldl chunks ⟨[], []⟩ rfl
  have h2 := rlFeed_foldl [chunks.flatten] ⟨[], []⟩ rfl
  simp only [rlFeed]
  rw [h1, h2]
  simp

/-! Event classifiers and the rejection log used by the lifecycle claim. -/

def isExitEv : LEvent → Bool
  | .exit _ => true
  | _ => false

def isSettledEv : LEvent → Bool
  | .settled _ => true
  | _ => false

def isLoggedEv : LEvent → Bool
  | .logged _ => true
  | _ => false

def rejections : List Settlement → List String
  | [] => []
  | .fulfilled :: ws => rejections ws
  | .rejected e :: ws => e :: rejections ws

theorem drainFrom_spec :
    ∀ (ws : List Settlement) (i : Nat),
      ∃ body : List LEvent,
        drainFrom i ws = body ++ [LEvent.exit 0] ∧
        body.filter isExitEv = [] ∧
        (body.filter isSettledEv).length = ws.length ∧
        body.filter isLoggedEv = (rejections ws).map LEvent.logged := by
  intro ws
  induction ws with
  | nil => intro i; exact ⟨[], rfl, rfl, rfl, rfl⟩
  | cons w ws ih =>
    intro i
    obtain ⟨body, h1, h2, h3, h4⟩ := ih (i + 1)
    cases w with
    | fulfilled =>
      exact ⟨.settled i :: body,
        by simp [drainFrom, h1],
        by simp [List.filter_cons, isExitEv, h2],
        by simp [List.filter_cons, isSettledEv, h3],
        by simpa [List.filter_cons, isLoggedEv, rejections] using h4⟩
    | rejected e =>
      exact ⟨.logged e :: .settled i :: body,
        by simp [drainFrom, h1],
        by simp [List.filter_cons, isExitEv, h2],
        by simp [List.filter_cons, isSettledEv, h3],
        by simpa [List.filter_cons, isLoggedEv, rejections] using h4⟩

/-- **C9.** The `finally` handler's event trace ends in the single exit
event, which carries the success code 0; no exit occurs earlier; every one
of the registered promises settles before that exit (the count of
settlement events preceding it equals the number of registered promises);
and each rejected promise contributes a log event (rejections are caught
by the `.catch(console.error)` wrapper, not propagated). -/
theorem c9_lifecycle_drains_before_exit (ws : List Settlement) :
    (lifecycleTrace ws).getLast? = some (.exit 0) ∧
    ((lifecycleTrace ws).dropLast).filter isExitEv = [] ∧
    (((lifecycleTrace ws).dropLast).filter isSettledEv).length = ws.length ∧
    (lifecycleTrace ws).filter isLoggedEv = (rejections ws).map LEvent.logged := by
  obtain ⟨body, h1, h2, h3, h4⟩ := drainFrom_spec ws 0
  rw [lifecycleTrace, h1]
  refine ⟨?_, ?_, ?_, ?_⟩
  · simp
  · simpa [List.dropLast_concat] using h2
  · simpa [List.dropLast_concat] using h3
  · simpa [List.filter_append, isLoggedEv] using h4

/-! Invariants of the request-assembler state machine. -/

theorem handleStep_after_start (s : HandleState) (c : InCmd)
    (h : s.bodyStart = true) :
    (handleStep s c).headers = s.headers ∧ (handleStep s c).bodyStart = true ∧
    (handleStep s c).dispatched = s.dispatched := by
  by_cases ha : s.aborted <;> cases c <;> simp [handleStep, h, ha]

theorem foldl_after_start (ys : List InCmd) :
    ∀ s : HandleState, s.bodyStart = true →
      (ys.foldl handleStep s).headers = s.headers ∧
      (ys.foldl handleStep s).bodyStart = true ∧
      (ys.foldl handleStep s).dispatched = s.dispatched := by
  induction ys with
  | nil => intro s h; exact ⟨rfl, h, rfl⟩
  | cons c ys ih =>
    intro s h
    obtain ⟨h1, h2, h3⟩ := handleStep_after_start s c h
    obtain ⟨g1, g2, g3⟩ := ih (handleStep s c) h2
    exact ⟨by rw [List.foldl_cons, g1, h1],
           by rw [List.foldl_cons]; exact g2,
           by rw [List.foldl_cons, g3, h3]⟩

theorem foldl_dispatch_inv (cs : List InCmd) :
    ∀ s : HandleState, s.dispatched = cond s.bodyStart 1 0 →
      (cs.foldl handleStep s).dispatched =
        cond (cs.foldl handleStep s).bodyStart 1 0 := by
  induction cs with
  | nil => intro s h; exact h
  | cons c cs ih =>
    intro s h
    rw [List.foldl_cons]
    apply ih
    by_cases hb : s.bodyStart = true
    · obtain ⟨_, h2, h3⟩ := handleStep_after_start s c hb
      rw [h3, h2, h, hb]
    · have hb' : s.bodyStart = false := by
        cases hbs : s.bodyStart
        · rfl
        · exact absurd hbs hb
      rw [hb'] at h
      by_cases ha : s.aborted <;> cases c <;> simp [handleStep, hb', ha, h]

/-- The dispatcher is started at most once whatever the host sends. -/
theorem runCmds_dispatched_le_one (cs : List InCmd) :
    (runCmds cs).dispatched ≤ 1 := by
  have h := foldl_dispatch_inv cs handleInit rfl
  rw [runCmds, h]
  cases (cs.foldl handleStep handleInit).bodyStart <;> simp

/-- **C10.** Once a command prefix has processed a `start-body` (the
assembler's `bodyStart` flag is set), any continuation of the command
stream leaves the request's header collection unchanged, keeps the flag
set, and starts no further dispatch (the dispatch count stays as it was);
moreover, over every possible command sequence the dispatcher is started
at most once. -/
theorem c10_assembler_frozen_after_start (xs ys : List InCmd)
    (h : (runCmds xs).bodyStart = true) :
    (runCmds (xs ++ ys)).headers = (runCmds xs).headers ∧
    (runCmds (xs ++ ys)).bodyStart = true ∧
    (runCmds (xs ++ ys)).dispatched = (runCmds xs).dispatched ∧
    (∀ cs : List InCmd, (runCmds cs).dispatched ≤ 1) := by
  have hfold : runCmds (xs ++ ys) = ys.foldl handleStep (runCmds xs) := by
    rw [runCmds, runCmds, List.foldl_append]
  obtain ⟨h1, h2, h3⟩ := foldl_after_start ys (runCmds xs) h
  exact ⟨by rw [hfold]; exact h1, by rw [hfold]; exact h2,
         by rw [hfold]; exact h3, runCmds_dispatched_le_one⟩

/-- **C10, witness.** The frozen-after-`start-body` theorem applied to a
concrete stream: headers `a: 1` then `start-body`, followed by a second
`header` and `start-body` that the assembler must ignore. -/
theorem c10_assembler_frozen_after_start_witness :
    (runCmds [InCmd.header "a" "1", InCmd.startBody]).bodyStart = true ∧
    ((runCmds ([InCmd.header "a" "1", InCmd.startBody] ++
        [InCmd.header "b" "2", InCmd.startBody, InCmd.data [1], InCmd.endBody])).headers =
      (runCmds [InCmd.header "a" "1", InCmd.startBody]).headers ∧
     (runCmds ([InCmd.header "a" "1", InCmd.startBody] ++
        [InCmd.header "b" "2", InCmd.startBody, InCmd.data [1], InCmd.endBody])).bodyStart = true ∧
     (runCmds ([InCmd.header "a" "1", InCmd.startBody] ++
        [InCmd.header "b" "2", InCmd.startBody, InCmd.data [1], InCmd.endBody])).dispatched =
      (runCmds [InCmd.header "a" "1", InCmd.startBody]).dispatched ∧
     (∀ cs : List InCmd, (runCmds cs).dispatched ≤ 1)) :=
  ⟨by decide, c10_assembler_frozen_after_start _ _ (by decide)⟩

end SvelteCli
